import Mathlib

/-!
Shallow embedding of the deadonfilm repository.

Source files embedded:
* `app/models.py`   — the `DeadActor` ORM model (table `dead_actors`).
* `app/main.py`     — the FastAPI endpoints `search` and `died`.
* `bin/fill_db.py`  — dataset loader, incremental variant
  (`INSERT ... ON CONFLICT (person_id) DO NOTHING`).
* `app/bin/fill_db.py` — dataset loader, destructive variant
  (drop table, recreate, single bulk insert).

The external metadata provider (Cinemagoer) is modelled as opaque functions
`searchMovie : String → List MovieSearchItem` and
`getMovie : String → Option MovieData`, exactly the black-box interface the
service calls.  The persisted table is modelled as a `List DeadActor` in
database order; SQL statements issued by a request are recorded as a trace of
`SQLOp` values whose semantics is `applyOp`.
-/

/-- A row of the `dead_actors` table (`app/models.py`): integer primary key
`person_id`, text columns `birth`, `death`, `name`. -/
structure DeadActor where
  person_id : Nat
  birth : String
  death : String
  name : String
deriving Repr, DecidableEq

/-- A cast entry returned by the metadata provider: numeric person id
(`int(actor.getID())`) and the role shown for this movie
(`str(actor.currentRole)`). -/
structure CastActor where
  id : Nat
  currentRole : String
deriving Repr, DecidableEq

/-- The provider's answer for `get_movie(movie_id, info=["full credits"])`:
`movie.data.get("cast", None)` is `none` when no cast key is reported. -/
structure MovieData where
  cast : Option (List CastActor)
deriving Repr, DecidableEq

/-- One result of the provider's title search: `movie["long imdb title"]`,
`movie.getID()`, and `movie.get("kind")` (`none` when the kind key is absent). -/
structure MovieSearchItem where
  long_imdb_title : String
  id : String
  kind : Option String
deriving Repr, DecidableEq

/-- A record of the JSON array returned by the `/search/` endpoint:
exactly the two fields `value` and `id`. -/
structure SearchEntry where
  value : String
  id : String
deriving Repr, DecidableEq

/-- A record of the JSON array returned by the `/died/` endpoint:
exactly the fields `person_id`, `birth`, `death`, `character`, `name`. -/
structure DeadRecord where
  person_id : Nat
  birth : String
  death : String
  character : String
  name : String
deriving Repr, DecidableEq

/-- Outcome of a request handler: a value, an `HTTPException` with status code
and detail message, or an uncaught Python exception (e.g. a dict `KeyError`). -/
inductive Response (α : Type) where
  | ok (val : α)
  | httpError (status_code : Nat) (detail : String)
  | crash
deriving Repr, DecidableEq

/-- SQL statements the embedded code issues against the `dead_actors` table. -/
inductive SQLOp where
  | select (pred : DeadActor → Bool)
  | insertOnConflictDoNothing (row : DeadActor)
  | dropTable
  | createTable
  | bulkInsert (rows : List DeadActor)

/-- `true` exactly for read-only statements. -/
def SQLOp.isRead : SQLOp → Bool
  | .select _ => true
  | _ => false

/-- Effect of one SQL statement on the stored table (list of rows in database
order).  A `select` does not change the table; `insertOnConflictDoNothing`
appends the row unless its `person_id` is already present; `dropTable` empties
the storage; `createTable` (with if-not-exists semantics) keeps existing rows;
`bulkInsert` appends all given rows. -/
def applyOp (db : List DeadActor) : SQLOp → List DeadActor
  | .select _ => db
  | .insertOnConflictDoNothing r =>
      if db.any (fun q => q.person_id == r.person_id) then db else db ++ [r]
  | .dropTable => []
  | .createTable => db
  | .bulkInsert rows => db ++ rows

/-- Effect of a statement trace, first statement applied first. -/
def applyOps (ops : List SQLOp) (db : List DeadActor) : List DeadActor :=
  ops.foldl applyOp db

/-- The `/search/` endpoint (`app/main.py`, `search`): delegates to the
provider's title search, keeps results whose `kind` key equals `"movie"`, and
returns `{value, id}` records.  Second component: the SQL statements issued
(none — the handler never touches storage). -/
def search (searchMovie : String → List MovieSearchItem) (movie_title : String) :
    List SearchEntry × List SQLOp :=
  (((searchMovie movie_title).filter (fun m => m.kind == some "movie")).map
      (fun m => { value := m.long_imdb_title, id := m.id }),
   [])

/-- The membership predicate of the single `SELECT` issued by `died`:
`DeadActor.person_id.in_(actors_by_id.keys())`. -/
def inCastPred (actors : List CastActor) (p : DeadActor) : Bool :=
  actors.any (fun a => a.id == p.person_id)

/-- Lookup in the `actors_by_id` dict built by
`for actor in actors: actors_by_id[int(actor.getID())] = actor`:
the value stored for a key is the last cast entry with that id;
`none` models a `KeyError`. -/
def lookupActor (actors : List CastActor) (pid : Nat) : Option CastActor :=
  (actors.filter (fun a => a.id == pid)).getLast?

/-- The record `died` appends for one storage row: `person_id`, `birth`,
`death`, `name` from the storage row, `character` from the live cast entry. -/
def mkRecord (p : DeadActor) (a : CastActor) : DeadRecord :=
  { person_id := p.person_id, birth := p.birth, death := p.death,
    character := a.currentRole, name := p.name }

/-- Comparator of the final `sorted(..., key=death, reverse=True)`:
descending lexicographic order on the `death` strings. -/
def deathDesc (a b : DeadRecord) : Bool :=
  decide (b.death ≤ a.death)

/-- The `/died/` endpoint (`app/main.py`, `died`).  Resolves the movie through
the provider (404 naming the id when it does not resolve), reads the cast
(404 when the provider reports no cast key), builds the id→actor dict, issues
one `SELECT` restricted to the cast ids, combines each returned storage row
with the dict entry for its `person_id` (a missing key would crash), and
returns the records sorted by `death` descending.  Second component: the SQL
statement trace. -/
def died (getMovie : String → Option MovieData) (db : List DeadActor)
    (movie_id : String) : Response (List DeadRecord) × List SQLOp :=
  match getMovie movie_id with
  | none => (.httpError 404 ("Movie not found: " ++ movie_id), [])
  | some movie =>
    match movie.cast with
    | none => (.httpError 404 "No cast reported", [])
    | some actors =>
      let queryRows := db.filter (inCastPred actors)
      match queryRows.mapM
          (fun p => (lookupActor actors p.person_id).map (mkRecord p)) with
      | none => (.crash, [SQLOp.select (inCastPred actors)])
      | some dead_people =>
          (.ok (dead_people.mergeSort deathDesc),
           [SQLOp.select (inCastPred actors)])

/-- A record of the TSV dataset after `csv.DictReader`: the four fields the
loaders read (`nconst`, `birthYear`, `deathYear`, `primaryName`). -/
structure Row where
  nconst : String
  birthYear : String
  deathYear : String
  primaryName : String
deriving Repr, DecidableEq

/-- Sentinel substitution applied to each field:
`if row[key] == r"\N": row[key] = ""`. -/
def mapSent (s : String) : String :=
  if s == "\\N" then "" else s

/-- A dataset row after the sentinel-substitution loop ran over all its keys. -/
def sentRow (r : Row) : Row :=
  { nconst := mapSent r.nconst, birthYear := mapSent r.birthYear,
    deathYear := mapSent r.deathYear, primaryName := mapSent r.primaryName }

/-- Python `str.strip()`: drop whitespace from both ends
(ASCII whitespace model). -/
def pyStrip (s : String) : String :=
  ⟨(((s.data.dropWhile Char.isWhitespace).reverse.dropWhile
      Char.isWhitespace).reverse)⟩

/-- The loader's keep condition on a sentinel-substituted row:
`row["deathYear"].strip() != ""`. -/
def keep (r : Row) : Bool :=
  pyStrip (sentRow r).deathYear != ""

/-- Python `s.replace("nm", "")`: delete every non-overlapping occurrence of
`"nm"`, scanning left to right. -/
def replaceNm : List Char → List Char
  | [] => []
  | [c] => [c]
  | c₁ :: c₂ :: rest =>
      if c₁ = 'n' ∧ c₂ = 'm' then replaceNm rest
      else c₁ :: replaceNm (c₂ :: rest)

/-- `row["nconst"].replace("nm", "")` on strings. -/
def stripNm (s : String) : String :=
  ⟨replaceNm s.data⟩

/-- The storage engine's cast of a string literal to the `integer` column
`person_id`: the value of a non-empty digit string, error otherwise. -/
def digitsToNat? (cs : List Char) : Option Nat :=
  if !cs.isEmpty && cs.all Char.isDigit then
    some (cs.foldl (fun n c => n * 10 + (c.toNat - 48)) 0)
  else none

/-- The stored row a loader builds from a kept dataset row: `person_id` from
`nconst` with `"nm"` removed and cast to integer (`none` when the cast fails),
`birth`, `death`, `name` from the remaining fields. -/
def mkStored (r : Row) : Option DeadActor :=
  let r := sentRow r
  (digitsToNat? (stripNm r.nconst).data).map (fun n =>
    { person_id := n, birth := r.birthYear, death := r.deathYear,
      name := r.primaryName })

/-- `INSERT ... ON CONFLICT (person_id) DO NOTHING`: append the row unless a
row with its `person_id` already exists. -/
def insertRow (db : List DeadActor) (row : DeadActor) : List DeadActor :=
  if db.any (fun q => q.person_id == row.person_id) then db else db ++ [row]

/-- Main loop of `bin/fill_db.py` (incremental variant): create the table with
if-not-exists semantics, then for each dataset row substitute sentinels, skip
rows whose stripped death year is empty, and insert-or-skip the built storage
row.  `Except.error` models a raised database error (integer cast failure). -/
def runLoader1 (db : List DeadActor) : List Row → Except Unit (List DeadActor)
  | [] => .ok db
  | r :: rows =>
    if keep r then
      match mkStored r with
      | none => .error ()
      | some row => runLoader1 (insertRow db row) rows
    else runLoader1 db rows

/-- Main loop of `app/bin/fill_db.py` (destructive variant): drop the table,
recreate it, collect every kept row, and bulk-insert the collected rows in one
statement.  The prior contents of storage are discarded; a failed integer cast
or a duplicate `person_id` among the inserted rows raises. -/
def runLoader2 (_db : List DeadActor) (rows : List Row) :
    Except Unit (List DeadActor) :=
  match (rows.filter keep).mapM mkStored with
  | none => .error ()
  | some stored =>
      if (stored.map (fun s => s.person_id)).Nodup then .ok stored
      else .error ()

/-! ### Helper lemmas -/

/-- A storage row matching the `SELECT` predicate has its `person_id` among the
dict keys, so the dict lookup returns a cast entry. -/
theorem lookupActor_isSome_of_inCast (actors : List CastActor) (p : DeadActor)
    (h : inCastPred actors p = true) :
    (lookupActor actors p.person_id).isSome := by
  unfold inCastPred at h
  obtain ⟨a, ha, hid⟩ := List.any_eq_true.mp h
  have hmem : a ∈ actors.filter (fun a => a.id == p.person_id) :=
    List.mem_filter.mpr ⟨ha, hid⟩
  have hne : actors.filter (fun a => a.id == p.person_id) ≠ [] :=
    List.ne_nil_of_mem hmem
  simpa [lookupActor, List.getLast?_isSome] using hne

/-- If `f` succeeds on every element, `mapM f` succeeds, and the output is
pointwise related to the input. -/
theorem mapM_some_of_all_isSome {α β : Type} (f : α → Option β) :
    ∀ xs : List α, (∀ x ∈ xs, (f x).isSome) →
      ∃ l, xs.mapM f = some l ∧ List.Forall₂ (fun x y => f x = some y) xs l := by
  intro xs
  induction xs with
  | nil => intro _; exact ⟨[], rfl, List.Forall₂.nil⟩
  | cons x xs ih =>
    intro h
    obtain ⟨y, hy⟩ := Option.isSome_iff_exists.mp (h x (List.mem_cons_self _ _))
    obtain ⟨l, hl, hrel⟩ := ih (fun z hz => h z (List.mem_cons_of_mem _ hz))
    refine ⟨y :: l, ?_, List.Forall₂.cons hy hrel⟩
    rw [← List.mapM'_eq_mapM] at hl ⊢
    simp [hy, hl]

/-- Conversely, a successful `mapM` yields the pointwise relation. -/
theorem forall₂_of_mapM_eq_some {α β : Type} (f : α → Option β) :
    ∀ (xs : List α) (l : List β), xs.mapM f = some l →
      List.Forall₂ (fun x y => f x = some y) xs l := by
  intro xs
  induction xs with
  | nil =>
    intro l hl
    rw [← List.mapM'_eq_mapM] at hl
    simp only [List.mapM'_nil, Option.pure_def, Option.some_inj] at hl
    exact hl ▸ List.Forall₂.nil
  | cons x xs ih =>
    intro l hl
    rw [← List.mapM'_eq_mapM] at hl
    simp only [List.mapM'_cons, Option.pure_def, Option.bind_eq_bind] at hl
    rw [List.mapM'_eq_mapM] at hl
    cases hfx : f x with
    | none => rw [hfx] at hl; simp only [Option.none_bind] at hl; cases hl
    | some y =>
      rw [hfx] at hl
      simp only [Option.some_bind] at hl
      cases hxs : xs.mapM f with
      | none => rw [hxs] at hl; simp only [Option.none_bind] at hl; cases hl
      | some l' =>
        rw [hxs] at hl
        simp only [Option.some_bind, Option.some_inj] at hl
        exact hl ▸ List.Forall₂.cons hfx (ih l' hxs)

/-- Every right element of a `Forall₂` has a related left element. -/
theorem forall₂_mem_right {α β : Type} {R : α → β → Prop} :
    ∀ {xs : List α} {ys : List β}, List.Forall₂ R xs ys →
      ∀ y ∈ ys, ∃ x ∈ xs, R x y := by
  intro xs ys h
  induction h with
  | nil => intro y hy; cases hy
  | cons hR _ ih =>
    intro y hy
    rcases List.mem_cons.mp hy with rfl | hy
    · exact ⟨_, List.mem_cons_self _ _, hR⟩
    · obtain ⟨x, hx, hxy⟩ := ih y hy
      exact ⟨x, List.mem_cons_of_mem _ hx, hxy⟩

/-- Every left element of a `Forall₂` has a related right element. -/
theorem forall₂_mem_left {α β : Type} {R : α → β → Prop} :
    ∀ {xs : List α} {ys : List β}, List.Forall₂ R xs ys →
      ∀ x ∈ xs, ∃ y ∈ ys, R x y := by
  intro xs ys h
  induction h with
  | nil => intro x hx; cases hx
  | cons hR _ ih =>
    intro x hx
    rcases List.mem_cons.mp hx with rfl | hx
    · exact ⟨_, List.mem_cons_self _ _, hR⟩
    · obtain ⟨y, hy, hxy⟩ := ih x hx
      exact ⟨y, List.mem_cons_of_mem _ hy, hxy⟩

/-- `countP` transfers along `Forall₂` when related elements agree on the
predicates. -/
theorem countP_eq_of_forall₂ {α β : Type} {R : α → β → Prop}
    (p : α → Bool) (q : β → Bool) :
    ∀ {xs : List α} {ys : List β}, List.Forall₂ R xs ys →
      (∀ x y, R x y → p x = q y) → xs.countP p = ys.countP q := by
  intro xs ys h
  induction h with
  | nil => intro _; rfl
  | cons hR _ ih =>
    intro hpq
    simp only [List.countP_cons, ih hpq, hpq _ _ hR]

/-- When the movie resolves and has cast data, `died` reaches the query branch:
the `mapM` over the filtered rows succeeds and the response is the sorted
record list together with the one-`SELECT` trace. -/
theorem died_some_cast (gm : String → Option MovieData) (db : List DeadActor)
    (mid : String) (mv : MovieData) (actors : List CastActor)
    (h1 : gm mid = some mv) (h2 : mv.cast = some actors) :
    ∃ l₀,
      (db.filter (inCastPred actors)).mapM
          (fun p => (lookupActor actors p.person_id).map (mkRecord p)) = some l₀
      ∧ List.Forall₂
          (fun p r => (lookupActor actors p.person_id).map (mkRecord p) = some r)
          (db.filter (inCastPred actors)) l₀
      ∧ died gm db mid =
          (.ok (l₀.mergeSort deathDesc), [SQLOp.select (inCastPred actors)]) := by
  have hsome : ∀ p ∈ db.filter (inCastPred actors),
      ((lookupActor actors p.person_id).map (mkRecord p)).isSome := by
    intro p hp
    have h := lookupActor_isSome_of_inCast actors p (List.mem_filter.mp hp).2
    cases hl : lookupActor actors p.person_id with
    | none => rw [hl] at h; cases h
    | some a => simp [hl]
  obtain ⟨l₀, hmapM, hrel⟩ := mapM_some_of_all_isSome _ _ hsome
  refine ⟨l₀, hmapM, hrel, ?_⟩
  unfold died
  simp only [h1, h2, hmapM]

/-! ### Claim theorems: lookup service -/

/-- C10: for every person row returned by the storage query (the rows of the
table satisfying the `SELECT`'s membership predicate), the indexed lookup of
that row's `person_id` in the cast-member dict succeeds, because the query
restricts `person_id` to the dict's keys; consequently `died` never raises a
missing-key error. -/
theorem died_dict_lookup_total :
    ∀ (actors : List CastActor) (db : List DeadActor),
      (∀ p ∈ db.filter (inCastPred actors),
        (lookupActor actors p.person_id).isSome)
      ∧ ∀ (gm : String → Option MovieData) (mid : String),
          (died gm db mid).1 ≠ Response.crash := by
  intro actors db
  constructor
  · intro p hp
    exact lookupActor_isSome_of_inCast actors p (List.mem_filter.mp hp).2
  · intro gm mid
    cases h1 : gm mid with
    | none => unfold died; simp only [h1]; intro h; cases h
    | some mv =>
      cases h2 : mv.cast with
      | none => unfold died; simp only [h1, h2]; intro h; cases h
      | some actors2 =>
        obtain ⟨l₀, _, _, hd⟩ := died_some_cast gm db mid mv actors2 h1 h2
        rw [hd]
        intro h
        cases h

/-- C10 witness: concrete cast and table where the filtered rows all have a
successful dict lookup and `died` does not crash. -/
theorem died_dict_lookup_total_witness :
    (∀ p ∈ ([⟨101, "1932", "1978", "Robert Shaw"⟩] : List DeadActor).filter
        (inCastPred [⟨101, "Quint"⟩]),
      (lookupActor [⟨101, "Quint"⟩] p.person_id).isSome)
    ∧ (died (fun _ => some ⟨some [⟨101, "Quint"⟩]⟩)
        [⟨101, "1932", "1978", "Robert Shaw"⟩] "tt0073195").1 ≠ Response.crash :=
  ⟨(died_dict_lookup_total [⟨101, "Quint"⟩]
      [⟨101, "1932", "1978", "Robert Shaw"⟩]).1,
   (died_dict_lookup_total [⟨101, "Quint"⟩]
      [⟨101, "1932", "1978", "Robert Shaw"⟩]).2
     (fun _ => some ⟨some [⟨101, "Quint"⟩]⟩) "tt0073195"⟩

/-- C2: every successful `died` result list is sorted by the `death` string
descending: no later element's `death` lexicographically exceeds an earlier
element's. -/
theorem died_sorted_death_desc :
    ∀ (gm : String → Option MovieData) (db : List DeadActor) (mid : String)
      (l : List DeadRecord),
      (died gm db mid).1 = Response.ok l →
      l.Pairwise (fun a b => b.death ≤ a.death) := by
  intro gm db mid l h
  cases h1 : gm mid with
  | none => unfold died at h; simp only [h1] at h; cases h
  | some mv =>
    cases h2 : mv.cast with
    | none => unfold died at h; simp only [h1, h2] at h; cases h
    | some actors =>
      obtain ⟨l₀, _, _, hd⟩ := died_some_cast gm db mid mv actors h1 h2
      rw [hd] at h
      have hl : l = l₀.mergeSort deathDesc := by
        cases h
        rfl
      have htrans : ∀ a b c : DeadRecord,
          deathDesc a b → deathDesc b c → deathDesc a c := by
        intro a b c hab hbc
        simp only [deathDesc, decide_eq_true_eq] at *
        exact le_trans hbc hab
      have htotal : ∀ a b : DeadRecord, deathDesc a b || deathDesc b a := by
        intro a b
        simp only [deathDesc, Bool.or_eq_true, decide_eq_true_eq]
        exact le_total b.death a.death
      have hs := List.sorted_mergeSort htrans htotal l₀
      rw [hl]
      exact hs.imp (fun hab => by
        simpa only [deathDesc, decide_eq_true_eq] using hab)

/-- C2 witness: a concrete request returning a non-empty sorted list. -/
theorem died_sorted_death_desc_witness :
    (died (fun _ => some ⟨some [⟨101, "Quint"⟩]⟩)
        [⟨101, "1932", "1978", "Robert Shaw"⟩] "tt0073195").1 =
      Response.ok [⟨101, "1932", "1978", "Quint", "Robert Shaw"⟩]
    ∧ List.Pairwise (fun a b : DeadRecord => b.death ≤ a.death)
        [⟨101, "1932", "1978", "Quint", "Robert Shaw"⟩] := by
  have hstep : died (fun _ => some ⟨some [⟨101, "Quint"⟩]⟩)
      [⟨101, "1932", "1978", "Robert Shaw"⟩] "tt0073195" =
      (Response.ok
        (List.mergeSort [⟨101, "1932", "1978", "Quint", "Robert Shaw"⟩]
          deathDesc),
       [SQLOp.select (inCastPred [⟨101, "Quint"⟩])]) := rfl
  have hev : (died (fun _ => some ⟨some [⟨101, "Quint"⟩]⟩)
      [⟨101, "1932", "1978", "Robert Shaw"⟩] "tt0073195").1 =
      Response.ok [⟨101, "1932", "1978", "Quint", "Robert Shaw"⟩] := by
    rw [hstep, List.mergeSort_singleton]
  exact ⟨hev,
    died_sorted_death_desc (fun _ => some ⟨some [⟨101, "Quint"⟩]⟩)
      [⟨101, "1932", "1978", "Robert Shaw"⟩] "tt0073195"
      [⟨101, "1932", "1978", "Quint", "Robert Shaw"⟩] hev⟩

/-- C5: when the provider does not resolve the movie id, `died` fails with
HTTP 404 and a detail message naming the requested id
(`"Movie not found: " ++ movie_id`); when the movie resolves but the provider
reports no cast data, `died` fails with HTTP 404 (`"No cast reported"`). -/
theorem died_not_found_404 :
    ∀ (gm : String → Option MovieData) (db : List DeadActor) (mid : String),
      (gm mid = none →
        (died gm db mid).1 =
          Response.httpError 404 ("Movie not found: " ++ mid))
      ∧ (∀ mv, gm mid = some mv → mv.cast = none →
          (died gm db mid).1 = Response.httpError 404 "No cast reported") := by
  intro gm db mid
  constructor
  · intro h1
    unfold died
    simp only [h1]
  · intro mv h1 h2
    unfold died
    simp only [h1, h2]

/-- C5 witness: a provider resolving nothing yields the 404 naming the id; a
provider resolving a movie without cast data yields the no-cast 404. -/
theorem died_not_found_404_witness :
    (died (fun _ => none) [] "tt9999999").1 =
      Response.httpError 404 ("Movie not found: " ++ "tt9999999")
    ∧ (died (fun _ => some ⟨none⟩) [] "tt9999999").1 =
      Response.httpError 404 "No cast reported" :=
  ⟨(died_not_found_404 (fun _ => none) [] "tt9999999").1 rfl,
   (died_not_found_404 (fun _ => some ⟨none⟩) [] "tt9999999").2 ⟨none⟩ rfl rfl⟩

/-- C6: every record returned by `search` originates from a provider result
whose `kind` is `"movie"` (results with another kind or no kind at all are
excluded), and the record consists of exactly the provider's long title
(field `value`) and id (field `id`). -/
theorem search_only_movies :
    ∀ (sm : String → List MovieSearchItem) (movie_title : String)
      (e : SearchEntry), e ∈ (search sm movie_title).1 →
      ∃ m ∈ sm movie_title, m.kind = some "movie"
        ∧ e = ⟨m.long_imdb_title, m.id⟩ := by
  intro sm movie_title e he
  unfold search at he
  simp only [List.mem_map] at he
  obtain ⟨m, hm, rfl⟩ := he
  obtain ⟨hmem, hkind⟩ := List.mem_filter.mp hm
  exact ⟨m, hmem, by simpa using hkind, rfl⟩

/-- C6 witness: a provider returning one movie, one TV episode and one
kind-less record; `search` returns exactly the movie's `{value, id}` entry,
which the theorem traces back to the provider result. -/
theorem search_only_movies_witness :
    (⟨"Jaws (1975)", "0073195"⟩ : SearchEntry) ∈
      (search (fun _ =>
        [⟨"Jaws (1975)", "0073195", some "movie"⟩,
         ⟨"Jaws (1987) (TV)", "0999999", some "tv movie"⟩,
         ⟨"Jaws Unknown", "0111111", none⟩]) "Jaws").1
    ∧ ∃ m ∈ (fun (_ : String) =>
        [⟨"Jaws (1975)", "0073195", some "movie"⟩,
         ⟨"Jaws (1987) (TV)", "0999999", some "tv movie"⟩,
         (⟨"Jaws Unknown", "0111111", none⟩ : MovieSearchItem)]) "Jaws",
        m.kind = some "movie"
        ∧ (⟨"Jaws (1975)", "0073195"⟩ : SearchEntry) =
            ⟨m.long_imdb_title, m.id⟩ := by
  have hmem : (⟨"Jaws (1975)", "0073195"⟩ : SearchEntry) ∈
      (search (fun _ =>
        [⟨"Jaws (1975)", "0073195", some "movie"⟩,
         ⟨"Jaws (1987) (TV)", "0999999", some "tv movie"⟩,
         ⟨"Jaws Unknown", "0111111", none⟩]) "Jaws").1 := by
    unfold search
    simp
  exact ⟨hmem, search_only_movies _ "Jaws" _ hmem⟩

/-- C7: when the movie resolves with cast data but no cast member's id occurs
in the dead-persons table, `died` succeeds with the empty list (no error). -/
theorem died_no_dead_cast_empty :
    ∀ (gm : String → Option MovieData) (db : List DeadActor) (mid : String)
      (mv : MovieData) (actors : List CastActor),
      gm mid = some mv → mv.cast = some actors →
      (∀ a ∈ actors, ∀ p ∈ db, a.id ≠ p.person_id) →
      (died gm db mid).1 = Response.ok [] := by
  intro gm db mid mv actors h1 h2 hdisj
  have hfilter : db.filter (inCastPred actors) = [] := by
    rw [List.filter_eq_nil_iff]
    intro p hp hcast
    unfold inCastPred at hcast
    obtain ⟨a, ha, hid⟩ := List.any_eq_true.mp hcast
    exact hdisj a ha p hp (Nat.eq_of_beq_eq_true (by simpa using hid))
  obtain ⟨l₀, hmapM, hrel, hd⟩ := died_some_cast gm db mid mv actors h1 h2
  rw [hfilter] at hmapM
  have hl₀ : l₀ = [] := by
    have : (some [] : Option (List DeadRecord)) = some l₀ := hmapM ▸ rfl
    cases this
    rfl
  rw [hd, hl₀]
  simp only [List.mergeSort_nil]

/-- C7 witness: a cast disjoint from the table gives the successful empty
list. -/
theorem died_no_dead_cast_empty_witness :
    (died (fun _ => some ⟨some [⟨555, "Hooper"⟩]⟩)
      [⟨101, "1932", "1978", "Robert Shaw"⟩] "tt0073195").1 =
      Response.ok [] :=
  died_no_dead_cast_empty (fun _ => some ⟨some [⟨555, "Hooper"⟩]⟩)
    [⟨101, "1932", "1978", "Robert Shaw"⟩] "tt0073195"
    ⟨some [⟨555, "Hooper"⟩]⟩ [⟨555, "Hooper"⟩] rfl rfl (by decide)

/-- C9: neither endpoint mutates the dead-persons table: `search` issues no
SQL statement at all, `died` issues only read statements, and replaying
either trace against any table state leaves it unchanged. -/
theorem service_read_only :
    ∀ (sm : String → List MovieSearchItem) (gm : String → Option MovieData)
      (db : List DeadActor) (movie_title mid : String),
      ((search sm movie_title).2 = []
        ∧ applyOps (search sm movie_title).2 db = db)
      ∧ ((∀ op ∈ (died gm db mid).2, op.isRead = true)
        ∧ applyOps (died gm db mid).2 db = db) := by
  intro sm gm db movie_title mid
  refine ⟨⟨rfl, rfl⟩, ?_⟩
  cases h1 : gm mid with
  | none =>
    constructor
    · intro op hop
      unfold died at hop
      simp only [h1] at hop
      cases hop
    · unfold died
      simp only [h1]
      rfl
  | some mv =>
    cases h2 : mv.cast with
    | none =>
      constructor
      · intro op hop
        unfold died at hop
        simp only [h1, h2] at hop
        cases hop
      · unfold died
        simp only [h1, h2]
        rfl
    | some actors =>
      obtain ⟨l₀, hmapM, hrel, hd⟩ := died_some_cast gm db mid mv actors h1 h2
      rw [hd]
      constructor
      · intro op hop
        rcases List.mem_singleton.mp hop with rfl
        rfl
      · rfl

/-- C9 witness: concrete requests whose traces are read-only and leave a
concrete table unchanged. -/
theorem service_read_only_witness :
    ((search (fun _ => [⟨"Jaws (1975)", "0073195", some "movie"⟩]) "Jaws").2 = []
      ∧ applyOps
          (search (fun _ => [⟨"Jaws (1975)", "0073195", some "movie"⟩]) "Jaws").2
          [⟨101, "1932", "1978", "Robert Shaw"⟩] =
        [⟨101, "1932", "1978", "Robert Shaw"⟩])
    ∧ ((∀ op ∈ (died (fun _ => some ⟨some [⟨101, "Quint"⟩]⟩)
          [⟨101, "1932", "1978", "Robert Shaw"⟩] "tt0073195").2, op.isRead = true)
      ∧ applyOps
          (died (fun _ => some ⟨some [⟨101, "Quint"⟩]⟩)
            [⟨101, "1932", "1978", "Robert Shaw"⟩] "tt0073195").2
          [⟨101, "1932", "1978", "Robert Shaw"⟩] =
        [⟨101, "1932", "1978", "Robert Shaw"⟩]) :=
  service_read_only (fun _ => [⟨"Jaws (1975)", "0073195", some "movie"⟩])
    (fun _ => some ⟨some [⟨101, "Quint"⟩]⟩)
    [⟨101, "1932", "1978", "Robert Shaw"⟩] "Jaws" "tt0073195"

/-- In a table whose `person_id` column is duplicate-free, the number of rows
with a given `person_id` is one when present and zero otherwise. -/
theorem countP_pid_of_nodup :
    ∀ (db : List DeadActor), (db.map (fun p => p.person_id)).Nodup →
      ∀ n, db.countP (fun p => p.person_id == n) =
        if db.any (fun p => p.person_id == n) then 1 else 0 := by
  intro db
  induction db with
  | nil => intro _ n; rfl
  | cons p ds ih =>
    intro hnd n
    rw [List.map_cons, List.nodup_cons] at hnd
    obtain ⟨hpnotin, hnd'⟩ := hnd
    by_cases hpn : p.person_id = n
    · have hzero : ds.countP (fun q => q.person_id == n) = 0 := by
        rw [List.countP_eq_zero]
        intro q hq hqn
        exact hpnotin (hpn ▸ (Nat.eq_of_beq_eq_true (by simpa using hqn)) ▸
          List.mem_map_of_mem (fun r => r.person_id) hq)
      rw [List.countP_cons, hzero]
      simp [hpn]
    · rw [List.countP_cons, List.any_cons]
      have hfalse : (p.person_id == n) = false := by simp [hpn]
      rw [hfalse]
      simp only [Bool.false_or, if_neg, add_zero]
      exact ih hnd' n

/-- C1: whenever the movie resolves with cast data and the table's
`person_id` column is duplicate-free (its primary-key invariant), `died`
returns, via a single set-membership `SELECT`, exactly one record per cast
member whose id occurs in the table (and none for any other id), and every
returned record combines the storage row's `person_id`, `birth`, `death` and
`name` with the `character` taken from the live cast dict. -/
theorem died_one_record_per_dead_cast_member :
    ∀ (gm : String → Option MovieData) (db : List DeadActor) (mid : String)
      (mv : MovieData) (actors : List CastActor),
      gm mid = some mv → mv.cast = some actors →
      (db.map (fun p => p.person_id)).Nodup →
      ∃ l, (died gm db mid).1 = Response.ok l
        ∧ (∀ n, (l.filter (fun r => r.person_id == n)).length =
            if actors.any (fun a => a.id == n)
                && db.any (fun p => p.person_id == n)
            then 1 else 0)
        ∧ (∀ r ∈ l, ∃ p ∈ db, ∃ a, lookupActor actors p.person_id = some a
            ∧ r = mkRecord p a)
        ∧ (died gm db mid).2 = [SQLOp.select (inCastPred actors)] := by
  intro gm db mid mv actors h1 h2 hnd
  obtain ⟨l₀, hmapM, hrel, hd⟩ := died_some_cast gm db mid mv actors h1 h2
  refine ⟨l₀.mergeSort deathDesc, by rw [hd], ?_, ?_, by rw [hd]⟩
  · intro n
    have hperm : List.Perm (l₀.mergeSort deathDesc) l₀ :=
      List.mergeSort_perm l₀ deathDesc
    rw [← List.countP_eq_length_filter, hperm.countP_eq]
    have hcnt : l₀.countP (fun r => r.person_id == n) =
        (db.filter (inCastPred actors)).countP (fun p => p.person_id == n) := by
      symm
      apply countP_eq_of_forall₂ _ _ hrel
      intro p r hpr
      obtain ⟨a, _, hr⟩ := Option.map_eq_some'.mp hpr
      rw [← hr]
      rfl
    rw [hcnt, List.countP_filter]
    by_cases hA : actors.any (fun a => a.id == n) = true
    · have hcong : ∀ p ∈ db,
          ((p.person_id == n) && inCastPred actors p) ↔ (p.person_id == n) := by
        intro p _
        by_cases hpn : p.person_id = n
        · have : inCastPred actors p = true := by
            unfold inCastPred
            rw [hpn]
            exact hA
          simp [this]
        · simp [hpn]
      rw [List.countP_congr hcong, countP_pid_of_nodup db hnd n, hA,
        Bool.true_and]
    · have hA' : actors.any (fun a => a.id == n) = false :=
        Bool.eq_false_iff.mpr hA
      have hzero : ∀ p ∈ db,
          ¬ ((p.person_id == n) && inCastPred actors p) = true := by
        intro p _ hcontra
        rw [Bool.and_eq_true] at hcontra
        obtain ⟨hpn, hin⟩ := hcontra
        have hpid : p.person_id = n := Nat.eq_of_beq_eq_true (by simpa using hpn)
        unfold inCastPred at hin
        rw [hpid] at hin
        exact absurd hin (by simp [hA'])
      rw [List.countP_eq_zero.mpr hzero, hA', Bool.false_and]
      rfl
  · intro r hr
    have hr₀ : r ∈ l₀ :=
      (List.mergeSort_perm l₀ deathDesc).mem_iff.mp hr
    obtain ⟨p, hp, hpr⟩ := forall₂_mem_right hrel r hr₀
    obtain ⟨a, ha, hra⟩ := Option.map_eq_some'.mp hpr
    exact ⟨p, (List.mem_filter.mp hp).1, a, ha, hra.symm⟩

/-- C1 witness: a two-member cast against a two-row table with one overlap:
the response holds exactly one record, for the overlapping id, built from the
storage row plus the live character. -/
theorem died_one_record_per_dead_cast_member_witness :
    ∃ l, (died (fun _ => some ⟨some [⟨101, "Quint"⟩, ⟨555, "Hooper"⟩]⟩)
        [⟨101, "1932", "1978", "Robert Shaw"⟩, ⟨999, "1900", "1980", "Other"⟩]
        "tt0073195").1 = Response.ok l
      ∧ (∀ n, (l.filter (fun r => r.person_id == n)).length =
          if ([⟨101, "Quint"⟩, ⟨555, "Hooper"⟩] : List CastActor).any
              (fun a => a.id == n)
              && ([⟨101, "1932", "1978", "Robert Shaw"⟩,
                   ⟨999, "1900", "1980", "Other"⟩] : List DeadActor).any
                  (fun p => p.person_id == n)
          then 1 else 0)
      ∧ (∀ r ∈ l, ∃ p ∈ ([⟨101, "1932", "1978", "Robert Shaw"⟩,
            ⟨999, "1900", "1980", "Other"⟩] : List DeadActor), ∃ a,
            lookupActor [⟨101, "Quint"⟩, ⟨555, "Hooper"⟩] p.person_id = some a
            ∧ r = mkRecord p a)
      ∧ (died (fun _ => some ⟨some [⟨101, "Quint"⟩, ⟨555, "Hooper"⟩]⟩)
          [⟨101, "1932", "1978", "Robert Shaw"⟩, ⟨999, "1900", "1980", "Other"⟩]
          "tt0073195").2 =
        [SQLOp.select (inCastPred [⟨101, "Quint"⟩, ⟨555, "Hooper"⟩])] :=
  died_one_record_per_dead_cast_member
    (fun _ => some ⟨some [⟨101, "Quint"⟩, ⟨555, "Hooper"⟩]⟩)
    [⟨101, "1932", "1978", "Robert Shaw"⟩, ⟨999, "1900", "1980", "Other"⟩]
    "tt0073195" ⟨some [⟨101, "Quint"⟩, ⟨555, "Hooper"⟩]⟩
    [⟨101, "Quint"⟩, ⟨555, "Hooper"⟩] rfl rfl (by decide)

/-! ### Loader lemmas -/

/-- A kept row's built storage value has a non-empty death field: the value
inserted is the sentinel-substituted death year, whose whitespace-stripped
form the keep condition requires to be non-empty. -/
theorem death_ne_empty_of_keep (r : Row) (s : DeadActor)
    (hk : keep r = true) (hm : mkStored r = some s) : s.death ≠ "" := by
  unfold mkStored at hm
  obtain ⟨n, _, hs⟩ := Option.map_eq_some'.mp hm
  have hdeath : s.death = (sentRow r).deathYear := by rw [← hs]
  unfold keep at hk
  intro hempty
  rw [hdeath] at hempty
  rw [hempty] at hk
  exact absurd hk (by decide)

/-- The incremental loader only appends: the prior table is an unchanged
initial segment of the result. -/
theorem runLoader1_append_ext :
    ∀ (rows : List Row) (db out : List DeadActor),
      runLoader1 db rows = .ok out → ∃ ext, out = db ++ ext := by
  intro rows
  induction rows with
  | nil =>
    intro db out h
    cases h
    exact ⟨[], (List.append_nil db).symm⟩
  | cons r rows ih =>
    intro db out h
    unfold runLoader1 at h
    by_cases hk : keep r
    · rw [if_pos hk] at h
      cases hms : mkStored r with
      | none => rw [hms] at h; cases h
      | some row =>
        rw [hms] at h
        obtain ⟨ext, hext⟩ := ih _ _ h
        unfold insertRow at hext
        by_cases hpres : db.any (fun q => q.person_id == row.person_id)
        · rw [if_pos hpres] at hext
          exact ⟨ext, hext⟩
        · rw [if_neg hpres] at hext
          exact ⟨row :: ext, by rw [hext, List.append_assoc]; rfl⟩
    · rw [if_neg hk] at h
      exact ih _ _ h

/-- After a successful incremental run, every kept row's `person_id` is
present in the resulting table. -/
theorem runLoader1_mem_pid :
    ∀ (rows : List Row) (db out : List DeadActor),
      runLoader1 db rows = .ok out →
      ∀ r ∈ rows, keep r = true →
        ∃ s, mkStored r = some s
          ∧ s.person_id ∈ out.map (fun p => p.person_id) := by
  intro rows
  induction rows with
  | nil => intro db out _ r hr; cases hr
  | cons r₀ rows ih =>
    intro db out h r hr hk
    unfold runLoader1 at h
    rcases List.mem_cons.mp hr with rfl | hr
    · rw [if_pos hk] at h
      cases hms : mkStored r with
      | none => rw [hms] at h; cases h
      | some row =>
        rw [hms] at h
        refine ⟨row, rfl, ?_⟩
        obtain ⟨ext, hext⟩ := runLoader1_append_ext rows _ _ h
        have hin : row.person_id ∈ (insertRow db row).map (fun p => p.person_id) := by
          unfold insertRow
          by_cases hpres : db.any (fun q => q.person_id == row.person_id)
          · rw [if_pos hpres]
            obtain ⟨q, hq, hqid⟩ := List.any_eq_true.mp hpres
            have : q.person_id = row.person_id :=
              Nat.eq_of_beq_eq_true (by simpa using hqid)
            exact this ▸ List.mem_map_of_mem (fun p => p.person_id) hq
          · rw [if_neg hpres]
            simp
        rw [hext, List.map_append]
        exact List.mem_append_left _ hin
    · by_cases hk₀ : keep r₀
      · rw [if_pos hk₀] at h
        cases hms : mkStored r₀ with
        | none => rw [hms] at h; cases h
        | some row =>
          rw [hms] at h
          exact ih _ _ h r hr hk
      · rw [if_neg hk₀] at h
        exact ih _ _ h r hr hk

/-- If every kept row's `person_id` is already present, the incremental run
is a no-op: every insert hits the conflict branch. -/
theorem runLoader1_noop :
    ∀ (rows : List Row) (db : List DeadActor),
      (∀ r ∈ rows, keep r = true →
        ∃ s, mkStored r = some s
          ∧ s.person_id ∈ db.map (fun p => p.person_id)) →
      runLoader1 db rows = .ok db := by
  intro rows
  induction rows with
  | nil => intro db _; rfl
  | cons r₀ rows ih =>
    intro db hall
    unfold runLoader1
    by_cases hk : keep r₀
    · rw [if_pos hk]
      obtain ⟨s, hms, hmem⟩ := hall r₀ (List.mem_cons_self _ _) hk
      rw [hms]
      have hpres : db.any (fun q => q.person_id == s.person_id) = true := by
        rw [List.any_eq_true]
        obtain ⟨q, hq, hqid⟩ := List.mem_map.mp hmem
        exact ⟨q, hq, by simp [hqid]⟩
      have hins : insertRow db s = db := by
        unfold insertRow
        rw [if_pos hpres]
      show runLoader1 (insertRow db s) rows = Except.ok db
      rw [hins]
      exact ih db (fun r hr hkr => hall r (List.mem_cons_of_mem _ hr) hkr)
    · rw [if_neg hk]
      exact ih db (fun r hr hkr => hall r (List.mem_cons_of_mem _ hr) hkr)

/-- The incremental loader preserves freedom from duplicate `person_id`s. -/
theorem runLoader1_nodup :
    ∀ (rows : List Row) (db out : List DeadActor),
      runLoader1 db rows = .ok out →
      (db.map (fun p => p.person_id)).Nodup →
      (out.map (fun p => p.person_id)).Nodup := by
  intro rows
  induction rows with
  | nil => intro db out h hnd; cases h; exact hnd
  | cons r₀ rows ih =>
    intro db out h hnd
    unfold runLoader1 at h
    by_cases hk : keep r₀
    · rw [if_pos hk] at h
      cases hms : mkStored r₀ with
      | none => rw [hms] at h; cases h
      | some row =>
        rw [hms] at h
        refine ih _ _ h ?_
        unfold insertRow
        by_cases hpres : db.any (fun q => q.person_id == row.person_id)
        · rw [if_pos hpres]; exact hnd
        · rw [if_neg hpres]
          rw [List.map_append, List.nodup_append]
          refine ⟨hnd, List.nodup_singleton _, ?_⟩
          intro a ha hb
          rcases List.mem_singleton.mp hb with rfl
          obtain ⟨q, hq, hqid⟩ := List.mem_map.mp ha
          exact absurd (List.any_eq_true.mpr ⟨q, hq, by simp [hqid]⟩) hpres
    · rw [if_neg hk] at h
      exact ih _ _ h hnd

/-- A generic preservation property of the incremental loader: any predicate
holding for all prior rows and for every row a kept record can build also
holds for all rows after a successful run. -/
theorem runLoader1_preserves (P : DeadActor → Prop)
    (hP : ∀ r s, keep r = true → mkStored r = some s → P s) :
    ∀ (rows : List Row) (db out : List DeadActor),
      runLoader1 db rows = .ok out →
      (∀ p ∈ db, P p) → ∀ p ∈ out, P p := by
  intro rows
  induction rows with
  | nil => intro db out h hdb; cases h; exact hdb
  | cons r₀ rows ih =>
    intro db out h hdb
    unfold runLoader1 at h
    by_cases hk : keep r₀
    · rw [if_pos hk] at h
      cases hms : mkStored r₀ with
      | none => rw [hms] at h; cases h
      | some row =>
        rw [hms] at h
        refine ih _ _ h ?_
        intro p hp
        unfold insertRow at hp
        by_cases hpres : db.any (fun q => q.person_id == row.person_id)
        · rw [if_pos hpres] at hp; exact hdb p hp
        · rw [if_neg hpres] at hp
          rcases List.mem_append.mp hp with hp | hp
          · exact hdb p hp
          · rcases List.mem_singleton.mp hp with rfl
            exact hP r₀ p hk hms
    · rw [if_neg hk] at h
      exact ih _ _ h hdb

/-- Shape of a successful destructive run: the result is exactly the built
rows of the kept dataset rows, with duplicate-free `person_id`s, and the
prior table contents are ignored. -/
theorem runLoader2_ok_iff :
    ∀ (db : List DeadActor) (rows : List Row) (out : List DeadActor),
      runLoader2 db rows = .ok out →
      List.Forall₂ (fun r s => mkStored r = some s) (rows.filter keep) out
      ∧ (out.map (fun s => s.person_id)).Nodup := by
  intro db rows out h
  unfold runLoader2 at h
  cases hm : (rows.filter keep).mapM mkStored with
  | none => rw [hm] at h; cases h
  | some stored =>
    rw [hm] at h
    have h' : (if (stored.map (fun s => s.person_id)).Nodup then
        Except.ok stored else Except.error ()) = Except.ok out := h
    by_cases hnd : (stored.map (fun s => s.person_id)).Nodup
    · rw [if_pos hnd] at h'
      cases h'
      exact ⟨forall₂_of_mapM_eq_some mkStored _ _ hm, hnd⟩
    · rw [if_neg hnd] at h'
      cases h'

/-! ### Claim theorems: dataset loaders -/

/-- C3 counterexample: a dataset row whose death-year field is a single
space is non-empty after sentinel substitution (`mapSent " " ≠ ""`), yet
both loaders drop it — the keep condition strips whitespace with
`.strip()` before comparing against the empty string. -/
theorem loader_whitespace_death_dropped :
    mapSent " " ≠ ""
    ∧ runLoader1 [] [⟨"nm0000001", "1899", " ", "Test Person"⟩] = .ok []
    ∧ runLoader2 [] [⟨"nm0000001", "1899", " ", "Test Person"⟩] = .ok [] :=
  ⟨by decide, rfl, rfl⟩

/-- C3 (amended): a processed row passes the loader's keep filter iff its
death-year field is non-empty after sentinel substitution and
whitespace stripping; every row the bulk loader stores comes from exactly
such rows and each kept row is stored; every row in storage after either
loader has a non-empty death field; sentinel substitution is a total
function of the field value and never raises. -/
theorem loader_death_nonempty :
    ∀ (db : List DeadActor) (rows : List Row) (out : List DeadActor),
      (runLoader1 db rows = .ok out → (∀ p ∈ db, p.death ≠ "") →
        ∀ p ∈ out, p.death ≠ "")
      ∧ (runLoader2 db rows = .ok out →
          (∀ p ∈ out, p.death ≠ "")
          ∧ (∀ r ∈ rows, keep r = true → ∃ s, mkStored r = some s ∧ s ∈ out)
          ∧ (∀ s ∈ out, ∃ r ∈ rows, keep r = true ∧ mkStored r = some s))
      ∧ (∀ r : Row, keep r = (pyStrip (mapSent r.deathYear) != "")) := by
  intro db rows out
  refine ⟨?_, ?_, fun r => rfl⟩
  · intro h hdb
    exact runLoader1_preserves (fun p => p.death ≠ "") death_ne_empty_of_keep
      rows db out h hdb
  · intro h
    obtain ⟨hrel, _⟩ := runLoader2_ok_iff db rows out h
    refine ⟨?_, ?_, ?_⟩
    · intro s hs
      obtain ⟨r, hr, hmk⟩ := forall₂_mem_right hrel s hs
      exact death_ne_empty_of_keep r s (List.mem_filter.mp hr).2 hmk
    · intro r hr hk
      obtain ⟨s, hs, hmk⟩ :=
        forall₂_mem_left hrel r (List.mem_filter.mpr ⟨hr, hk⟩)
      exact ⟨s, hmk, hs⟩
    · intro s hs
      obtain ⟨r, hr, hmk⟩ := forall₂_mem_right hrel s hs
      obtain ⟨hrr, hk⟩ := List.mem_filter.mp hr
      exact ⟨r, hrr, hk, hmk⟩

/-- C3 witness: a row with death year `"1965"` is kept and stored with a
non-empty death field. -/
theorem loader_death_nonempty_witness :
    runLoader1 [] [⟨"nm0000001", "1899", "1965", "Test Person"⟩] =
      .ok [⟨1, "1899", "1965", "Test Person"⟩]
    ∧ ∀ p ∈ ([⟨1, "1899", "1965", "Test Person"⟩] : List DeadActor),
        p.death ≠ "" :=
  ⟨rfl,
   (loader_death_nonempty [] [⟨"nm0000001", "1899", "1965", "Test Person"⟩]
      [⟨1, "1899", "1965", "Test Person"⟩]).1 rfl
     (fun _ hp => absurd hp (List.not_mem_nil _))⟩

/-- C4 counterexample: the destructive loader (`app/bin/fill_db.py`) does not
have insert-or-skip semantics: re-ingesting a dataset replaces the whole
table, so a prior stored row (here person 1 with name `"Old Name"`) is gone
afterwards, overwritten by the freshly built row. -/
theorem loader2_discards_prior_rows :
    runLoader2 [⟨1, "1900", "1950", "Old Name"⟩]
        [⟨"nm1", "1900", "1950", "New Name"⟩] =
      .ok [⟨1, "1900", "1950", "New Name"⟩]
    ∧ (⟨1, "1900", "1950", "Old Name"⟩ : DeadActor) ∉
        ([⟨1, "1900", "1950", "New Name"⟩] : List DeadActor) :=
  ⟨rfl, by decide⟩

/-- C4 (amended): running either loader twice on the same dataset leaves
storage as after one run; the incremental loader additionally never creates
duplicate `person_id` rows and never overwrites or loses existing rows (the
prior table is an unchanged initial segment of the result); the destructive
loader reaches the same end state by rebuilding the table from scratch,
discarding prior rows instead of skipping conflicts. -/
theorem loader_rerun_idempotent :
    ∀ (db : List DeadActor) (rows : List Row) (out : List DeadActor),
      (runLoader1 db rows = .ok out →
        runLoader1 out rows = .ok out
        ∧ (∃ ext, out = db ++ ext)
        ∧ ((db.map (fun p => p.person_id)).Nodup →
            (out.map (fun p => p.person_id)).Nodup))
      ∧ (runLoader2 db rows = .ok out → runLoader2 out rows = .ok out) := by
  intro db rows out
  constructor
  · intro h
    exact ⟨runLoader1_noop rows out (runLoader1_mem_pid rows db out h),
      runLoader1_append_ext rows db out h,
      fun hnd => runLoader1_nodup rows db out h hnd⟩
  · intro h
    have hignores : runLoader2 out rows = runLoader2 db rows := rfl
    rw [hignores, h]

/-- C4 witness: one concrete row ingested onto an empty table, then
re-ingested: the second incremental run returns the same single-row table. -/
theorem loader_rerun_idempotent_witness :
    runLoader1 [] [⟨"nm0000001", "1899", "1965", "Test Person"⟩] =
      .ok [⟨1, "1899", "1965", "Test Person"⟩]
    ∧ runLoader1 [⟨1, "1899", "1965", "Test Person"⟩]
        [⟨"nm0000001", "1899", "1965", "Test Person"⟩] =
      .ok [⟨1, "1899", "1965", "Test Person"⟩] :=
  ⟨rfl,
   ((loader_rerun_idempotent [] [⟨"nm0000001", "1899", "1965", "Test Person"⟩]
      [⟨1, "1899", "1965", "Test Person"⟩]).1 rfl).1⟩

/-- Deleting occurrences of `"nm"` from a character list that starts with
`'n', 'm'` removes that leading occurrence. -/
theorem replaceNm_cons_nm (cs : List Char) :
    replaceNm ('n' :: 'm' :: cs) = replaceNm cs := by
  simp [replaceNm]

/-- A list of digit characters contains no occurrence of `"nm"`, so the
deletion leaves it unchanged. -/
theorem replaceNm_digits :
    ∀ cs : List Char, (∀ c ∈ cs, c.isDigit) → replaceNm cs = cs := by
  intro cs
  induction cs with
  | nil => intro _; rfl
  | cons c tl ih =>
    intro h
    cases tl with
    | nil => rfl
    | cons c₂ rest =>
      have hc : c.isDigit = true := h c (List.mem_cons_self _ _)
      have hcn : ¬(c = 'n' ∧ c₂ = 'm') := by
        rintro ⟨rfl, -⟩
        exact absurd hc (by decide)
      show replaceNm (c :: c₂ :: rest) = c :: c₂ :: rest
      simp only [replaceNm]
      rw [if_neg hcn, ih (fun x hx => h x (List.mem_cons_of_mem _ hx))]

/-- C8: for a kept dataset row whose (sentinel-substituted) identifier is the
alphabetic prefix `"nm"` followed by a non-empty digit string, the
`replace("nm", "")` call removes exactly that prefix and nothing else, and
the stored row carries the integer cast of the digit suffix as `person_id`,
with birth year, death year and primary name from the remaining fields. -/
theorem loader_person_id_numeric_suffix :
    ∀ (r : Row) (s : String),
      keep r = true →
      (sentRow r).nconst = "nm" ++ s →
      s.data ≠ [] → (∀ c ∈ s.data, c.isDigit) →
      stripNm ((sentRow r).nconst) = s
      ∧ ∃ n, digitsToNat? s.data = some n
          ∧ mkStored r = some ⟨n, (sentRow r).birthYear,
              (sentRow r).deathYear, (sentRow r).primaryName⟩ := by
  intro r s _ hnm hne hdig
  have hdata : ((sentRow r).nconst).data = 'n' :: 'm' :: s.data := by
    rw [hnm, String.data_append]
    rfl
  have hstrip : stripNm ((sentRow r).nconst) = s := by
    unfold stripNm
    rw [hdata, replaceNm_cons_nm, replaceNm_digits s.data hdig]
  have h1 : s.data.isEmpty = false := by
    cases hsd : s.data with
    | nil => exact absurd hsd hne
    | cons c tl => rfl
  have h2 : s.data.all Char.isDigit = true := List.all_eq_true.mpr hdig
  have hcond : (!s.data.isEmpty && s.data.all Char.isDigit) = true := by
    rw [h1, h2]
    rfl
  refine ⟨hstrip, s.data.foldl (fun n c => n * 10 + (c.toNat - 48)) 0, ?_, ?_⟩
  · unfold digitsToNat?
    rw [if_pos hcond]
  · show (digitsToNat? (stripNm ((sentRow r).nconst)).data).map _ = _
    rw [hstrip]
    unfold digitsToNat?
    rw [if_pos hcond]
    rfl

/-- C8 witness: the spec's example identifier `nm0000001` yields person_id 1
(integer cast of the suffix `0000001`) with the row's remaining fields. -/
theorem loader_person_id_numeric_suffix_witness :
    stripNm ((sentRow ⟨"nm0000001", "1899", "1965", "Paul Muni"⟩).nconst) =
      "0000001"
    ∧ ∃ n, digitsToNat? ("0000001" : String).data = some n
        ∧ mkStored ⟨"nm0000001", "1899", "1965", "Paul Muni"⟩ =
          some ⟨n,
            (sentRow ⟨"nm0000001", "1899", "1965", "Paul Muni"⟩).birthYear,
            (sentRow ⟨"nm0000001", "1899", "1965", "Paul Muni"⟩).deathYear,
            (sentRow ⟨"nm0000001", "1899", "1965", "Paul Muni"⟩).primaryName⟩ :=
  loader_person_id_numeric_suffix ⟨"nm0000001", "1899", "1965", "Paul Muni"⟩
    "0000001" (by decide) (by decide) (by decide) (by decide)
